import Mathlib

/-!
Shallow embedding of `ch08/lib/environ.py` (the `State` class: constructor,
`reset`, `_encode`/`encode`, `_close`/`_cur_close`, `step`).

Python floats are modelled by `ℚ`; numpy arrays by `List ℚ`; a raised
exception (failed `assert`, numpy `IndexError`) by `Except.error`.
-/

namespace Environ

/-- The `Prices` record consumed by the environment: four arrays of
relative/absolute price fields, indexed by bar.  (`open` is a Lean keyword,
so the `open` field is named `open_`.) -/
structure Prices where
  open_ : List ℚ
  high : List ℚ
  low : List ℚ
  close : List ℚ
  deriving DecidableEq, Repr

/-- numpy 1-d array indexing with a (possibly negative) Python int index:
a negative index wraps by the length once, anything still out of range
raises `IndexError`. -/
def npGet (xs : List ℚ) (i : Int) : Except String ℚ :=
  let j : Int := if i < 0 then i + (xs.length : Int) else i
  if j < 0 then Except.error "IndexError"
  else
    match xs[j.toNat]? with
    | some v => Except.ok v
    | none => Except.error "IndexError"

/-- The `Actions` enum of `environ.py`. -/
inductive Actions where
  | Skip
  | Buy
  | Close
  deriving DecidableEq, Repr

/-- A Python value as passed to `State.__init__`: the constructor checks the
dynamic type of its arguments with `isinstance`.  Only the types that matter
to those checks are modelled. -/
inductive PyVal where
  | int : Int → PyVal
  | float : ℚ → PyVal
  | bool : Bool → PyVal
  deriving DecidableEq, Repr

/-- Python `isinstance(v, int)`; note that a Python `bool` IS an `int`
(bool is a subclass of int). -/
def isInstInt : PyVal → Bool
  | PyVal.int _ => true
  | PyVal.bool _ => true
  | _ => false

/-- Python `isinstance(v, float)`. -/
def isInstFloat : PyVal → Bool
  | PyVal.float _ => true
  | _ => false

/-- Python `isinstance(v, bool)`. -/
def isInstBool : PyVal → Bool
  | PyVal.bool _ => true
  | _ => false

/-- Numeric value of a PyVal read as an int (True == 1, False == 0). -/
def PyVal.toI : PyVal → Int
  | PyVal.int n => n
  | PyVal.bool b => if b then 1 else 0
  | PyVal.float _ => 0

/-- Numeric value of a PyVal read as a float. -/
def PyVal.toQ : PyVal → ℚ
  | PyVal.float q => q
  | PyVal.int n => (n : ℚ)
  | PyVal.bool b => if b then 1 else 0

/-- Boolean value of a PyVal (only used after an `isinstance(…, bool)` check). -/
def PyVal.toB : PyVal → Bool
  | PyVal.bool b => b
  | _ => false

/-- The configuration part of the `State` object, as set by
`State.__init__`: `comission` stores the percentage divided by 100. -/
structure Config where
  bars_count : Nat
  comission : ℚ
  reset_on_close : Bool
  reward_on_close : Bool
  deriving DecidableEq, Repr

/-- `State.__init__(bars_count, comission_perc, reset_on_close,
reward_on_close)`: the chain of `assert` statements, in source order, then
the field assignments (`self.comission = comission_perc / 100.0`). -/
def Config.init (bars_count comission_perc reset_on_close reward_on_close : PyVal) :
    Except String Config :=
  if !(isInstInt bars_count) then Except.error "AssertionError"
  else if !(bars_count.toI > 0) then Except.error "AssertionError"
  else if !(isInstFloat comission_perc) then Except.error "AssertionError"
  else if !(comission_perc.toQ ≥ 0) then Except.error "AssertionError"
  else if !(isInstBool reset_on_close) then Except.error "AssertionError"
  else if !(isInstBool reward_on_close) then Except.error "AssertionError"
  else Except.ok
    { bars_count := bars_count.toI.toNat
      comission := comission_perc.toQ / 100
      reset_on_close := reset_on_close.toB
      reward_on_close := reward_on_close.toB }

/-- The full mutable `State` object between a successful `reset` and the
next `reset`: configuration plus episode fields (`have_position`,
`open_price`, `_prices`, `_offset`). -/
structure State where
  bars_count : Nat
  comission : ℚ
  reset_on_close : Bool
  reward_on_close : Bool
  have_position : Bool
  open_price : ℚ
  prices : Prices
  offset : Nat
  deriving DecidableEq, Repr

/-- `State.reset(prices, offset)`: asserts `offset >= self.bars_count-1`
(the `isinstance(prices, data.Prices)` assert is vacuous in this typed
model), then sets `have_position = False`, `open_price = 0.0` and binds the
series and the offset.  The offset argument is a Python int, hence `Int`;
after the assert it is nonnegative, so it is stored as a `Nat`. -/
def Config.reset (c : Config) (prices : Prices) (offset : Int) : Except String State :=
  if offset ≥ (c.bars_count : Int) - 1 then
    Except.ok
      { bars_count := c.bars_count
        comission := c.comission
        reset_on_close := c.reset_on_close
        reward_on_close := c.reward_on_close
        have_position := false
        open_price := 0
        prices := prices
        offset := offset.toNat }
  else Except.error "AssertionError"

/-- Re-reading the configuration out of a live `State` (a second
`reset` call on the same object uses the same configuration fields). -/
def State.toConfig (s : State) : Config :=
  { bars_count := s.bars_count
    comission := s.comission
    reset_on_close := s.reset_on_close
    reward_on_close := s.reward_on_close }

/-- `State.__len__`: `3*self.bars_count + 1 + 1`. -/
def State.size (s : State) : Nat :=
  3 * s.bars_count + 1 + 1

/-- `State._close(offset)`: real close price of the bar at `offset`,
`open[offset] * (1.0 + rel_close)` with `rel_close = close[offset]`. -/
def State.closeAt (s : State) (offset : Int) : Except String ℚ := do
  let op ← npGet s.prices.open_ offset
  let rc ← npGet s.prices.close offset
  pure (op * (1 + rc))

/-- `State._cur_close()`: `self._close(self._offset)`. -/
def State.cur_close (s : State) : Except String ℚ :=
  s.closeAt (s.offset : Int)

/-- The `for bar_idx in range(-self.bars_count+1, 1)` loop body of
`State._encode`, unrolled as recursion on the number of bars left: at index
`lo` append `high[lo], low[lo], close[lo]` and continue at `lo + 1`. -/
def windowTriples (p : Prices) (lo : Int) : Nat → Except String (List ℚ)
  | 0 => pure []
  | n + 1 => do
    let h ← npGet p.high lo
    let l ← npGet p.low lo
    let c ← npGet p.close lo
    let rest ← windowTriples p (lo + 1) n
    pure (h :: l :: c :: rest)

/-- `State._encode(offset, have_position, open_price)`: the window of
`bars_count` triples for bars `offset-bars_count+1 .. offset`, then the
position flag (`float(have_position)`), then the open-position relative
profit (`0.0` without a position, `(self._close(offset) - open_price) /
open_price` with one). -/
def State.encodeAt (s : State) (offset : Int) (have_position : Bool)
    (open_price : ℚ) : Except String (List ℚ) := do
  let w ← windowTriples s.prices (offset - (s.bars_count : Int) + 1) s.bars_count
  let flag : ℚ := if have_position then 1 else 0
  let profit ←
    if have_position then do
      let cc ← s.closeAt offset
      pure ((cc - open_price) / open_price)
    else pure (0 : ℚ)
  pure (w ++ [flag, profit])

/-- `State.encode()`: `self._encode(self._offset, self.have_position,
self.open_price)`. -/
def State.encode (s : State) : Except String (List ℚ) :=
  s.encodeAt (s.offset : Int) s.have_position s.open_price

/-- `State.step(action)`: the four phases of the source, in order —
(1) the Buy branch (open a position at the current close, deduct
commission), (2) advance the offset and set `done` from
`self._offset >= self._prices.close.shape[0]-1`, (3) the continuous-accrual
branch `reward += open[offset] * close[offset]` while a position is held,
(4) the Close branch (close commission, `done |= reset_on_close`, optional
realized P&L, clear the position).  Returns the post-call object together
with the `(reward, done)` pair. -/
def State.step (s : State) (action : Actions) : Except String (State × ℚ × Bool) := do
  let (s, reward) ←
    if action = Actions.Buy && !s.have_position then do
      let close ← s.cur_close
      pure ({ s with have_position := true, open_price := close },
            (0 : ℚ) - close * s.comission)
    else pure (s, (0 : ℚ))
  let s := { s with offset := s.offset + 1 }
  let done : Bool := decide ((s.offset : Int) ≥ (s.prices.close.length : Int) - 1)
  let reward ←
    if s.have_position then do
      let o ← npGet s.prices.open_ (s.offset : Int)
      let c ← npGet s.prices.close (s.offset : Int)
      pure (reward + o * c)
    else pure reward
  if action = Actions.Close && s.have_position then do
    let cc ← s.cur_close
    let reward := reward - cc * s.comission
    let done := done || s.reset_on_close
    let reward ←
      if s.reward_on_close then do
        let cc2 ← s.cur_close
        pure (reward + (cc2 - s.open_price))
      else pure reward
    pure ({ s with have_position := false, open_price := 0 }, reward, done)
  else
    pure (s, reward, done)

/-- The states an episode can actually be in: any state produced by a
successful `reset`, and anything a successful `step` leads to from there
(a later `reset` on the same object is the first constructor again, with
the live configuration). -/
inductive Reachable : State → Prop where
  | reset : ∀ (c : Config) (p : Prices) (off : Int) (s : State),
      Config.reset c p off = Except.ok s → Reachable s
  | step : ∀ (s : State) (a : Actions) (s' : State) (r : ℚ) (d : Bool),
      Reachable s → State.step s a = Except.ok (s', r, d) → Reachable s'

/-- The absolute close price of bar `i`, `open[i] * (1 + close[i])`: the
pure value `State._close` computes when `i` is in range. -/
def absClose (p : Prices) (i : Nat) : ℚ :=
  p.open_.getD i 0 * (1 + p.close.getD i 0)

/-- The continuous accrual term of `step`, `open[i] * close[i]`. -/
def accrual (p : Prices) (i : Nat) : ℚ :=
  p.open_.getD i 0 * p.close.getD i 0

/-- The end-of-series `done` test of `step`, evaluated on the pre-step
state: the advanced offset has reached `close.shape[0] - 1`. -/
def doneAfter (s : State) : Bool :=
  decide (((s.offset : Int) + 1) ≥ (s.prices.close.length : Int) - 1)

/-- The window part of the observation as the spec describes it: the
triples `high[i], low[i], close[i]` for `n` consecutive bars starting at
`lo`, earliest bar first. -/
def windowFromSpec (p : Prices) (lo : Int) : Nat → List ℚ
  | 0 => []
  | n + 1 =>
    p.high.getD lo.toNat 0 :: p.low.getD lo.toNat 0 :: p.close.getD lo.toNat 0 ::
      windowFromSpec p (lo + 1) n

lemma npGet_nat (xs : List ℚ) (n : Nat) (h : n < xs.length) :
    npGet xs (n : Int) = Except.ok (xs.getD n 0) := by
  have h0 : ¬ ((n : Int) < 0) := by omega
  have h1 : ¬ ((n : Int) + (xs.length : Int) < 0) := by omega
  simp only [npGet, h0, if_false, h1, Int.toNat_natCast]
  simp [List.getElem?_eq_getElem h, List.getD_eq_getElem?_getD]

lemma npGet_int (xs : List ℚ) (i : Int) (h0 : 0 ≤ i) (h : i < (xs.length : Int)) :
    npGet xs i = Except.ok (xs.getD i.toNat 0) := by
  have he : i = (i.toNat : Int) := by omega
  rw [he]
  exact npGet_nat xs i.toNat (by omega)

lemma npGet_inv (xs : List ℚ) (i : Int) (v : ℚ) (h : npGet xs i = Except.ok v) :
    ∃ j : Nat, j < xs.length ∧ v = xs.getD j 0 := by
  simp only [npGet] at h
  set j : Int := if i < 0 then i + (xs.length : Int) else i with hj
  by_cases hneg : j < 0
  · rw [if_pos hneg] at h; exact absurd h (by simp)
  · rw [if_neg hneg] at h
    rcases hget : xs[j.toNat]? with _ | w
    · rw [hget] at h; exact absurd h (by simp)
    · rw [hget] at h
      cases h
      exact ⟨j.toNat, (List.getElem?_eq_some.mp hget).1,
        by simp [List.getD_eq_getElem?_getD, hget]⟩

lemma npGet_cast_add_one (xs : List ℚ) (n : Nat) (h : n + 1 < xs.length) :
    npGet xs ((n : Int) + 1) = Except.ok (xs.getD (n + 1) 0) := by
  have he : ((n : Int) + 1) = ((n + 1 : Nat) : Int) := by push_cast; ring
  rw [he]; exact npGet_nat _ _ h

lemma npGet_one_add (xs : List ℚ) (n : Nat) (h : n + 1 < xs.length) :
    npGet xs (1 + (n : Int)) = Except.ok (xs.getD (n + 1) 0) := by
  have he : (1 + (n : Int)) = ((n + 1 : Nat) : Int) := by push_cast; ring
  rw [he]; exact npGet_nat _ _ h

/-- `step` with no position and an action other than `Buy`: only the offset
advance and the end-of-series test happen. -/
lemma step_flat (s : State) (a : Actions) (hp : s.have_position = false)
    (ha : a ≠ Actions.Buy) :
    s.step a = Except.ok ({ s with offset := s.offset + 1 }, (0 : ℚ), doneAfter s) := by
  simp [State.step, hp, ha, doneAfter, bind, Except.bind, pure, Except.pure]

/-- `step` holding a position with an action other than `Close`
(`Skip`, or a redundant `Buy`): offset advance plus continuous accrual. -/
lemma step_hold (s : State) (a : Actions) (hp : s.have_position = true)
    (ha : a ≠ Actions.Close)
    (h1 : s.offset + 1 < s.prices.open_.length)
    (h2 : s.offset + 1 < s.prices.close.length) :
    s.step a = Except.ok ({ s with offset := s.offset + 1 },
      accrual s.prices (s.offset + 1), doneAfter s) := by
  simp [State.step, hp, ha, doneAfter, bind, Except.bind, pure, Except.pure,
    npGet_cast_add_one _ _ h1, npGet_cast_add_one _ _ h2,
    npGet_one_add _ _ h1, npGet_one_add _ _ h2, accrual]

/-- `step(Buy)` from a flat state: position opens at the pre-advance bar's
absolute close, entry commission is deducted, then the accrual at the new
offset is credited. -/
lemma step_buy (s : State) (hp : s.have_position = false)
    (h1 : s.offset < s.prices.open_.length)
    (h2 : s.offset < s.prices.close.length)
    (h3 : s.offset + 1 < s.prices.open_.length)
    (h4 : s.offset + 1 < s.prices.close.length) :
    s.step Actions.Buy = Except.ok
      ({ s with have_position := true, open_price := absClose s.prices s.offset,
                offset := s.offset + 1 },
       0 - absClose s.prices s.offset * s.comission + accrual s.prices (s.offset + 1),
       doneAfter s) := by
  simp [State.step, hp, doneAfter, bind, Except.bind, pure, Except.pure,
    State.cur_close, State.closeAt,
    npGet_nat _ _ h1, npGet_nat _ _ h2,
    npGet_cast_add_one _ _ h3, npGet_cast_add_one _ _ h4,
    npGet_one_add _ _ h3, npGet_one_add _ _ h4,
    absClose, accrual]

/-- `step(Close)` with a position: accrual at the new offset, exit
commission at the new offset's absolute close, optional realized P&L,
`done` forced by `reset_on_close`, position cleared. -/
lemma step_close (s : State) (hp : s.have_position = true)
    (h1 : s.offset + 1 < s.prices.open_.length)
    (h2 : s.offset + 1 < s.prices.close.length) :
    s.step Actions.Close = Except.ok
      ({ s with offset := s.offset + 1, have_position := false, open_price := 0 },
       accrual s.prices (s.offset + 1)
         - absClose s.prices (s.offset + 1) * s.comission
         + (if s.reward_on_close then absClose s.prices (s.offset + 1) - s.open_price else 0),
       doneAfter s || s.reset_on_close) := by
  by_cases hroc : s.reward_on_close <;>
  simp [State.step, hp, doneAfter, bind, Except.bind, pure, Except.pure,
    State.cur_close, State.closeAt, hroc,
    npGet_cast_add_one _ _ h1, npGet_cast_add_one _ _ h2,
    npGet_one_add _ _ h1, npGet_one_add _ _ h2, absClose, accrual]

lemma windowFromSpec_length (p : Prices) : ∀ (n : Nat) (lo : Int),
    (windowFromSpec p lo n).length = 3 * n
  | 0, _ => rfl
  | n + 1, lo => by
    simp [windowFromSpec, windowFromSpec_length p n (lo + 1)]
    ring

lemma windowTriples_ok (p : Prices) : ∀ (n : Nat) (lo : Int),
    (∀ k : Nat, k < n → 0 ≤ lo + k ∧ lo + k < (p.high.length : Int) ∧
      lo + k < (p.low.length : Int) ∧ lo + k < (p.close.length : Int)) →
    windowTriples p lo n = Except.ok (windowFromSpec p lo n)
  | 0, lo, _ => rfl
  | n + 1, lo, hb => by
    have h0 := hb 0 (Nat.succ_pos n)
    simp only [Nat.cast_zero, add_zero] at h0
    have ih := windowTriples_ok p n (lo + 1) (fun k hk => by
      have h := hb (k + 1) (by omega)
      push_cast at h
      exact ⟨by omega, by omega, by omega, by omega⟩)
    simp [windowTriples, windowFromSpec, bind, Except.bind, pure, Except.pure,
      npGet_int _ _ h0.1 h0.2.1, npGet_int _ _ h0.1 h0.2.2.1,
      npGet_int _ _ h0.1 h0.2.2.2, ih]

lemma encode_ok (s : State)
    (hB : s.bars_count ≤ s.offset + 1)
    (hh : s.offset < s.prices.high.length)
    (hl : s.offset < s.prices.low.length)
    (hc : s.offset < s.prices.close.length)
    (ho : s.have_position = true → s.offset < s.prices.open_.length) :
    s.encode = Except.ok
      (windowFromSpec s.prices ((s.offset : Int) - (s.bars_count : Int) + 1) s.bars_count ++
        [if s.have_position then (1 : ℚ) else 0,
         if s.have_position then (absClose s.prices s.offset - s.open_price) / s.open_price
         else 0]) := by
  have hw := windowTriples_ok s.prices s.bars_count
    ((s.offset : Int) - (s.bars_count : Int) + 1)
    (fun k hk => by
      refine ⟨by omega, by omega, by omega, by omega⟩)
  cases hp : s.have_position
  · simp [State.encode, State.encodeAt, bind, Except.bind, pure, Except.pure, hw, hp]
  · simp [State.encode, State.encodeAt, State.closeAt, bind, Except.bind,
      pure, Except.pure, hw, hp, npGet_nat _ _ (ho hp), npGet_nat _ _ hc, absClose]

lemma step_inv (s : State) (a : Actions) (s' : State) (r : ℚ) (d : Bool)
    (h : s.step a = Except.ok (s', r, d)) :
    s'.prices = s.prices ∧ s'.bars_count = s.bars_count ∧ s'.comission = s.comission ∧
    s'.reset_on_close = s.reset_on_close ∧ s'.reward_on_close = s.reward_on_close ∧
    s'.offset = s.offset + 1 ∧
    (doneAfter s = true → d = true) ∧
    ((a = Actions.Buy ∧ s.have_position = false ∧ s'.have_position = true ∧
        ∃ j : Nat, j < s.prices.open_.length ∧ ∃ i : Nat, i < s.prices.close.length ∧
          s'.open_price = s.prices.open_.getD j 0 * (1 + s.prices.close.getD i 0))
      ∨ (a = Actions.Close ∧ s.have_position = true ∧ s'.have_position = false ∧
          s'.open_price = 0)
      ∨ (s'.have_position = s.have_position ∧ s'.open_price = s.open_price)) := by
  cases a <;> cases hp : s.have_position <;>
    simp only [State.step, State.cur_close, State.closeAt, bind, Except.bind,
      pure, Except.pure, hp] at h <;> simp at h
  -- Skip, flat
  · obtain ⟨h1, h2, h3⟩ := h
    subst h1; subst h2; subst h3
    refine ⟨rfl, rfl, rfl, rfl, rfl, rfl, fun hd => ?_, Or.inr (Or.inr ⟨rfl, rfl⟩)⟩
    simp [doneAfter] at hd
    simp
    omega
  -- Skip, holding
  · rcases hg1 : npGet s.prices.open_ ((s.offset : Int) + 1) with _ | v1 <;>
      rcases hg2 : npGet s.prices.close ((s.offset : Int) + 1) with _ | v2 <;>
      rw [hg1, hg2] at h <;> simp at h
    obtain ⟨h1, h2, h3⟩ := h
    subst h1; subst h2; subst h3
    refine ⟨rfl, rfl, rfl, rfl, rfl, rfl, fun hd => ?_, Or.inr (Or.inr ⟨rfl, rfl⟩)⟩
    simp [doneAfter] at hd
    simp
    omega
  -- Buy, flat
  · rcases hg1 : npGet s.prices.open_ ((s.offset : Int)) with _ | v1 <;>
      rcases hg2 : npGet s.prices.close ((s.offset : Int)) with _ | v2 <;>
      rcases hg3 : npGet s.prices.open_ ((s.offset : Int) + 1) with _ | v3 <;>
      rcases hg4 : npGet s.prices.close ((s.offset : Int) + 1) with _ | v4 <;>
      rw [hg1, hg2] at h <;> simp at h <;> rw [hg3, hg4] at h <;> simp at h
    obtain ⟨h1, h2, h3⟩ := h
    subst h1; subst h2; subst h3
    obtain ⟨j, hjl, hjv⟩ := npGet_inv _ _ _ hg1
    obtain ⟨i, hil, hiv⟩ := npGet_inv _ _ _ hg2
    refine ⟨rfl, rfl, rfl, rfl, rfl, rfl, fun hd => ?_,
      Or.inl ⟨rfl, rfl, rfl, j, hjl, i, hil, by rw [← hjv, ← hiv]⟩⟩
    simp [doneAfter] at hd
    simp
    omega
  -- Buy, holding (redundant)
  · rcases hg1 : npGet s.prices.open_ ((s.offset : Int) + 1) with _ | v1 <;>
      rcases hg2 : npGet s.prices.close ((s.offset : Int) + 1) with _ | v2 <;>
      rw [hg1, hg2] at h <;> simp at h
    obtain ⟨h1, h2, h3⟩ := h
    subst h1; subst h2; subst h3
    refine ⟨rfl, rfl, rfl, rfl, rfl, rfl, fun hd => ?_, Or.inr (Or.inr ⟨rfl, rfl⟩)⟩
    simp [doneAfter] at hd
    simp
    omega
  -- Close, flat
  · obtain ⟨h1, h2, h3⟩ := h
    subst h1; subst h2; subst h3
    refine ⟨rfl, rfl, rfl, rfl, rfl, rfl, fun hd => ?_, Or.inr (Or.inr ⟨rfl, rfl⟩)⟩
    simp [doneAfter] at hd
    simp
    omega
  -- Close, holding
  · by_cases hroc : s.reward_on_close <;>
      rcases hg1 : npGet s.prices.open_ ((s.offset : Int) + 1) with _ | v1 <;>
      rcases hg2 : npGet s.prices.close ((s.offset : Int) + 1) with _ | v2 <;>
      rw [hg1, hg2] at h <;> simp [hroc] at h <;>
      obtain ⟨h1, h2, h3⟩ := h <;>
      (subst h1; subst h2; subst h3;
       refine ⟨rfl, rfl, rfl, rfl, by simp [hroc], rfl, fun hd => ?_,
         Or.inr (Or.inl ⟨rfl, rfl, rfl, rfl⟩)⟩;
       simp [doneAfter] at hd; simp; omega)

lemma reset_ok (c : Config) (p : Prices) (off : Int)
    (h : off ≥ (c.bars_count : Int) - 1) :
    c.reset p off = Except.ok
      { bars_count := c.bars_count, comission := c.comission,
        reset_on_close := c.reset_on_close, reward_on_close := c.reward_on_close,
        have_position := false, open_price := 0, prices := p,
        offset := off.toNat } := by
  simp [Config.reset, h]

lemma reset_err (c : Config) (p : Prices) (off : Int)
    (h : off < (c.bars_count : Int) - 1) :
    c.reset p off = Except.error "AssertionError" := by
  simp [Config.reset]
  omega

lemma reset_inv (c : Config) (p : Prices) (off : Int) (s : State)
    (h : c.reset p off = Except.ok s) :
    s.have_position = false ∧ s.open_price = 0 ∧ s.prices = p ∧
      s.offset = off.toNat ∧ off ≥ (c.bars_count : Int) - 1 := by
  by_cases hb : off ≥ (c.bars_count : Int) - 1
  · rw [reset_ok c p off hb] at h
    cases h
    exact ⟨rfl, rfl, rfl, rfl, hb⟩
  · rw [reset_err c p off (by omega)] at h
    exact absurd h (by simp)

/-- Auxiliary invariant for the open-price claims: whenever a reachable
state holds a position, its `open_price` is the absolute close price of
some in-range bar pair of the bound series. -/
lemma reachable_open_price (s : State) (hr : Reachable s) :
    s.have_position = true →
      ∃ j : Nat, j < s.prices.open_.length ∧ ∃ i : Nat, i < s.prices.close.length ∧
        s.open_price = s.prices.open_.getD j 0 * (1 + s.prices.close.getD i 0) := by
  induction hr with
  | reset c p off s0 hres =>
    intro hp
    exact absurd hp (by simp [(reset_inv c p off s0 hres).1])
  | step s0 a s' r d _ hstep ih =>
    intro hp
    obtain ⟨hpr, _, _, _, _, _, _, hcases⟩ := step_inv s0 a s' r d hstep
    rcases hcases with ⟨_, _, _, hbuy⟩ | ⟨_, _, hfp, _⟩ | ⟨hsame, hop⟩
    · rw [hpr]; exact hbuy
    · exact absurd hp (by simp [hfp])
    · rw [hpr, hop]
      exact ih (hsame ▸ hp)

instance exceptDecidableEq {ε α : Type} [DecidableEq ε] [DecidableEq α] :
    DecidableEq (Except ε α)
  | Except.error e, Except.error f =>
    if h : e = f then Decidable.isTrue (by rw [h]) else Decidable.isFalse (by simp [h])
  | Except.error _, Except.ok _ => Decidable.isFalse (by simp)
  | Except.ok _, Except.error _ => Decidable.isFalse (by simp)
  | Except.ok a, Except.ok b =>
    if h : a = b then Decidable.isTrue (by rw [h]) else Decidable.isFalse (by simp [h])

/-- A 3-bar series with constant absolute open 100 and zero relative
fields (a completely flat market). -/
def pFlat100 : Prices := ⟨[100, 100, 100], [0, 0, 0], [0, 0, 0], [0, 0, 0]⟩

/-- A 3-bar series with absolute open 100 and moving relative closes. -/
def pMove : Prices := ⟨[100, 100, 100], [0, 0, 0], [0, 0, 0], [0, 1/10, 1/5]⟩

/-- A 3-bar series whose absolute open prices are all zero. -/
def pZero : Prices := ⟨[0, 0, 0], [0, 0, 0], [0, 0, 0], [0, 0, 0]⟩

/-- A 1-bar series. -/
def pLen1 : Prices := ⟨[100], [0], [0], [0]⟩

/-- A 2-bar series. -/
def pLen2 : Prices := ⟨[100, 100], [0, 0], [0, 0], [0, 0]⟩

/-- Configuration: 1-bar window, commission fraction 1/1000 (0.1%). -/
def cfg1 : Config := ⟨1, 1/1000, true, true⟩

/-- Configuration: 1-bar window, zero commission. -/
def cfg0 : Config := ⟨1, 0, true, true⟩

/-- The state right after `cfg1.reset pFlat100 0`. -/
def sFlat100 : State := ⟨1, 1/1000, true, true, false, 0, pFlat100, 0⟩

/-- The state after `sFlat100.step Buy`: long at price 100, offset 1. -/
def sLong100 : State := ⟨1, 1/1000, true, true, true, 100, pFlat100, 1⟩

/-- A flat state at offset 1 of the 3-bar flat series (reachable via
`cfg1.reset pFlat100 1`). -/
def sAt1 : State := ⟨1, 1/1000, true, true, false, 0, pFlat100, 1⟩

/-- A flat state on `pMove` at offset 0. -/
def sMoveFlat : State := ⟨1, 1/1000, true, true, false, 0, pMove, 0⟩

/-- A holding state on `pMove` at offset 0 with open price 100. -/
def sMoveLong : State := ⟨1, 1/1000, true, true, true, 100, pMove, 0⟩

/-- A holding state on `pMove` with a 2-bar window at offset 1. -/
def sW5 : State := ⟨2, 1/1000, true, true, true, 100, pMove, 1⟩

/-- The state after `cfg0.reset pZero 0`. -/
def sZeroFlat : State := ⟨1, 0, true, true, false, 0, pZero, 0⟩

/-- The state after `sZeroFlat.step Buy`: a position "open" at price 0. -/
def sZeroLong : State := ⟨1, 0, true, true, true, 0, pZero, 1⟩

/-- A flat state on the 2-bar series at offset 1: the previous `step` from
offset 0 has already returned `done = true` (offset 1 ≥ 2 - 1). -/
def sDoneFlat : State := ⟨1, 0, true, true, false, 0, pLen2, 1⟩

/-- Claim C1: with no open position, `step(Buy)` opens at the *current*
(pre-advance) bar's absolute close `open[offset] * (1 + close[offset])` and
deducts `open_price * commission_fraction` from the returned reward (the
rest of the reward being the continuous accrual at the new offset); with a
position already open, `step(Buy)` changes neither `open_price` nor
`have_position` and deducts no commission; and `commission_fraction` is the
percentage given at construction divided by 100. -/
theorem buy_action_spec :
    (∀ s : State, s.have_position = false →
      s.offset < s.prices.open_.length → s.offset < s.prices.close.length →
      s.offset + 1 < s.prices.open_.length → s.offset + 1 < s.prices.close.length →
      s.step Actions.Buy = Except.ok
        ({ s with have_position := true, open_price := absClose s.prices s.offset,
                  offset := s.offset + 1 },
         0 - absClose s.prices s.offset * s.comission + accrual s.prices (s.offset + 1),
         doneAfter s)) ∧
    (∀ s : State, s.have_position = true →
      s.offset + 1 < s.prices.open_.length → s.offset + 1 < s.prices.close.length →
      s.step Actions.Buy = Except.ok
        ({ s with offset := s.offset + 1 }, accrual s.prices (s.offset + 1), doneAfter s)) ∧
    (∀ (b rc rw : PyVal) (q : ℚ) (c : Config),
      Config.init b (PyVal.float q) rc rw = Except.ok c → c.comission = q / 100) := by
  refine ⟨fun s hp h1 h2 h3 h4 => step_buy s hp h1 h2 h3 h4,
          fun s hp h1 h2 => step_hold s Actions.Buy hp (by decide) h1 h2,
          fun b rc rw q c hc => ?_⟩
  simp only [Config.init] at hc
  repeat' split at hc
  all_goals try exact Except.noConfusion hc
  injection hc with hc
  subst hc
  rfl

/-- Witness for C1 at concrete inputs: buying on the flat 100-series opens
at 100 and costs the 1/10 commission; a redundant Buy while long changes
nothing and charges nothing; a percentage of 1/10 is stored as 1/1000. -/
theorem buy_action_spec_witness :
    sFlat100.step Actions.Buy = Except.ok (sLong100, -(1 : ℚ)/10, false) ∧
    sLong100.step Actions.Buy = Except.ok ({ sLong100 with offset := 2 }, 0, true) ∧
    (⟨1, 1/1000, true, true⟩ : Config).comission = (1 : ℚ)/10 / 100 :=
  ⟨(buy_action_spec.1 sFlat100 rfl (by decide) (by decide) (by decide) (by decide)).trans
      (by norm_num [sFlat100, sLong100, pFlat100, absClose, accrual, doneAfter]),
   (buy_action_spec.2.1 sLong100 rfl (by decide) (by decide)).trans
      (by norm_num [sLong100, pFlat100, accrual, doneAfter]),
   buy_action_spec.2.2 (PyVal.int 1) (PyVal.bool true) (PyVal.bool true) (1/10)
     ⟨1, 1/1000, true, true⟩
     (by norm_num [Config.init, isInstInt, isInstFloat, isInstBool,
        PyVal.toI, PyVal.toQ, PyVal.toB])⟩

/-- Claim C2: with an open position, `step(Close)` deducts
`absolute_close(new offset) * commission_fraction`, forces `done` when
`reset_on_close` is set, adds the realized P&L
`absolute_close(new offset) - open_price` exactly when `reward_on_close` is
set, and leaves `have_position = false` and `open_price = 0`; with no open
position, `step(Close)` changes no position state and charges nothing. -/
theorem close_action_spec :
    (∀ s : State, s.have_position = true →
      s.offset + 1 < s.prices.open_.length → s.offset + 1 < s.prices.close.length →
      s.step Actions.Close = Except.ok
        ({ s with offset := s.offset + 1, have_position := false, open_price := 0 },
         accrual s.prices (s.offset + 1)
           - absClose s.prices (s.offset + 1) * s.comission
           + (if s.reward_on_close then absClose s.prices (s.offset + 1) - s.open_price
              else 0),
         doneAfter s || s.reset_on_close)) ∧
    (∀ s : State, s.have_position = false →
      s.step Actions.Close = Except.ok ({ s with offset := s.offset + 1 }, 0, doneAfter s)) :=
  ⟨fun s hp h1 h2 => step_close s hp h1 h2,
   fun s hp => step_flat s Actions.Close hp (by decide)⟩

/-- Witness for C2: closing the long-at-100 position on the flat series
pays the exit commission 1/10, books zero P&L, clears the position and
forces `done` through `reset_on_close`; a Close while flat is a pure
advance. -/
theorem close_action_spec_witness :
    sLong100.step Actions.Close =
      Except.ok ({ sLong100 with offset := 2, have_position := false, open_price := 0 },
        -(1 : ℚ)/10, true) ∧
    sFlat100.step Actions.Close = Except.ok ({ sFlat100 with offset := 1 }, 0, false) :=
  ⟨(close_action_spec.1 sLong100 rfl (by decide) (by decide)).trans
      (by norm_num [sLong100, pFlat100, absClose, accrual, doneAfter]),
   (close_action_spec.2 sFlat100 rfl).trans
      (by norm_num [sFlat100, pFlat100, doneAfter])⟩
/-- Claim C3: on every step where a position is open after the offset
advance — holding through `Skip` or a redundant `Buy`, the step a `Close`
executes on, and the step a `Buy` opens on — the quantity
`open[new offset] * close[new offset]` (the absolute open field times the
relative close field) is added to the returned reward, whatever the value
of `reward_on_close`. -/
theorem accrual_formula_spec :
    (∀ (s : State) (a : Actions), s.have_position = true → a ≠ Actions.Close →
      s.offset + 1 < s.prices.open_.length → s.offset + 1 < s.prices.close.length →
      s.step a = Except.ok
        ({ s with offset := s.offset + 1 }, accrual s.prices (s.offset + 1), doneAfter s)) ∧
    (∀ s : State, s.have_position = true →
      s.offset + 1 < s.prices.open_.length → s.offset + 1 < s.prices.close.length →
      s.step Actions.Close = Except.ok
        ({ s with offset := s.offset + 1, have_position := false, open_price := 0 },
         accrual s.prices (s.offset + 1)
           - absClose s.prices (s.offset + 1) * s.comission
           + (if s.reward_on_close then absClose s.prices (s.offset + 1) - s.open_price
              else 0),
         doneAfter s || s.reset_on_close)) ∧
    (∀ s : State, s.have_position = false →
      s.offset < s.prices.open_.length → s.offset < s.prices.close.length →
      s.offset + 1 < s.prices.open_.length → s.offset + 1 < s.prices.close.length →
      s.step Actions.Buy = Except.ok
        ({ s with have_position := true, open_price := absClose s.prices s.offset,
                  offset := s.offset + 1 },
         0 - absClose s.prices s.offset * s.comission + accrual s.prices (s.offset + 1),
         doneAfter s)) :=
  ⟨fun s a hp ha h1 h2 => step_hold s a hp ha h1 h2,
   fun s hp h1 h2 => step_close s hp h1 h2,
   fun s hp h1 h2 h3 h4 => step_buy s hp h1 h2 h3 h4⟩

/-- Witness for C3 on the moving series (`close[1] = 1/10`): holding
through a Skip earns the accrual `100 * (1/10) = 10`; the closing step
still earns that accrual on top of commission and P&L
(`10 - 110/1000 + 10 = 1989/100`); the opening Buy step earns it too
(`-1/10 + 10 = 99/10`). -/
theorem accrual_formula_spec_witness :
    sMoveLong.step Actions.Skip =
      Except.ok ({ sMoveLong with offset := 1 }, 10, false) ∧
    sMoveLong.step Actions.Close =
      Except.ok ({ sMoveLong with offset := 1, have_position := false, open_price := 0 },
        (1989 : ℚ)/100, true) ∧
    sMoveFlat.step Actions.Buy = Except.ok
      ({ sMoveFlat with have_position := true, open_price := 100, offset := 1 },
       (99 : ℚ)/10, false) :=
  ⟨(accrual_formula_spec.1 sMoveLong Actions.Skip rfl (by decide) (by decide)
      (by decide)).trans (by norm_num [sMoveLong, pMove, accrual, doneAfter]),
   (accrual_formula_spec.2.1 sMoveLong rfl (by decide) (by decide)).trans
      (by norm_num [sMoveLong, pMove, absClose, accrual, doneAfter]),
   (accrual_formula_spec.2.2 sMoveFlat rfl (by decide) (by decide) (by decide)
      (by decide)).trans (by norm_num [sMoveFlat, pMove, absClose, accrual, doneAfter])⟩

/-- Claim C4: every successful `step`, whatever the action and position
state, advances `offset` by exactly 1, and the returned `done` is true
whenever the new offset is ≥ series length - 1 (so stepping from
`offset = length - 2` returns `done = true`). -/
theorem offset_advance_done_spec :
    ∀ (s : State) (a : Actions) (s' : State) (r : ℚ) (d : Bool),
      s.step a = Except.ok (s', r, d) →
      s'.offset = s.offset + 1 ∧
      ((s.offset : Int) + 1 ≥ (s.prices.close.length : Int) - 1 → d = true) := by
  intro s a s' r d h
  obtain ⟨_, _, _, _, _, hoff, hdone, _⟩ := step_inv s a s' r d h
  refine ⟨hoff, fun hge => hdone ?_⟩
  simp [doneAfter]
  omega

/-- Witness for C4: stepping from `offset = length - 2 = 1` of the 3-bar
series advances the offset to 2 and reports `done = true`. -/
theorem offset_advance_done_spec_witness :
    ({ sAt1 with offset := 2 } : State).offset = sAt1.offset + 1 ∧
    ((sAt1.offset : Int) + 1 ≥ (sAt1.prices.close.length : Int) - 1 → (true : Bool) = true) :=
  offset_advance_done_spec sAt1 Actions.Skip { sAt1 with offset := 2 } 0 true
    ((step_flat sAt1 Actions.Skip rfl (by decide)).trans
      (by norm_num [sAt1, pFlat100, doneAfter]))

/-- Claim C5: under the window precondition, `encode` returns the vector of
length `3*bars_count + 2` listing `high[i], low[i], close[i]` for
`i = offset - bars_count + 1 .. offset` in order, then the position flag
(1.0 or 0.0), then 0.0 with no position or
`(absolute_close(offset) - open_price) / open_price` with one, where
`absolute_close(i) = open[i] * (1 + close[i])`. -/
theorem encode_layout_spec :
    ∀ s : State, s.bars_count ≤ s.offset + 1 →
      s.offset < s.prices.high.length → s.offset < s.prices.low.length →
      s.offset < s.prices.close.length →
      (s.have_position = true → s.offset < s.prices.open_.length) →
      ∃ v, s.encode = Except.ok v ∧
        v = windowFromSpec s.prices ((s.offset : Int) - (s.bars_count : Int) + 1)
              s.bars_count ++
            [if s.have_position then (1 : ℚ) else 0,
             if s.have_position then
               (absClose s.prices s.offset - s.open_price) / s.open_price
             else 0] ∧
        v.length = 3 * s.bars_count + 2 := by
  intro s hB hh hl hc ho
  refine ⟨_, encode_ok s hB hh hl hc ho, rfl, ?_⟩
  simp [windowFromSpec_length]

/-- Witness for C5: encoding the 2-bar-window holding state on the moving
series yields the 8-entry vector `[0,0,0, 0,0,1/10, 1, 1/10]`: the two
bars' triples, the flag 1 and the relative profit (110-100)/100. -/
theorem encode_layout_spec_witness :
    (∃ v, sW5.encode = Except.ok v ∧
      v = windowFromSpec sW5.prices ((sW5.offset : Int) - (sW5.bars_count : Int) + 1)
            sW5.bars_count ++
          [if sW5.have_position then (1 : ℚ) else 0,
           if sW5.have_position then
             (absClose sW5.prices sW5.offset - sW5.open_price) / sW5.open_price
           else 0] ∧
      v.length = 3 * sW5.bars_count + 2) ∧
    sW5.encode = Except.ok [0, 0, 0, 0, 0, 1/10, 1, 1/10] :=
  ⟨encode_layout_spec sW5 (by decide) (by decide) (by decide) (by decide)
      (fun _ => by decide),
   by norm_num [sW5, pMove, State.encode, State.encodeAt, State.closeAt, windowTriples,
     npGet, bind, Except.bind, pure, Except.pure]⟩

/-- Claim C8: in every state reachable from a `reset` by any sequence of
`step` calls, `have_position = false` implies `open_price = 0`; `reset`
establishes this and every `step` preserves it. -/
theorem flat_implies_zero_open_price :
    ∀ s : State, Reachable s → s.have_position = false → s.open_price = 0 := by
  intro s hr
  induction hr with
  | reset c p off s0 hres => exact fun _ => (reset_inv c p off s0 hres).2.1
  | step s0 a s' r d _ hstep ih =>
    intro hp
    obtain ⟨_, _, _, _, _, _, _, hcases⟩ := step_inv s0 a s' r d hstep
    rcases hcases with ⟨_, _, htp, _⟩ | ⟨_, _, _, hop⟩ | ⟨hsame, hop⟩
    · exact absurd hp (by simp [htp])
    · exact hop
    · rw [hop]; exact ih (hsame ▸ hp)

/-- Witness for C8: the state reached by `cfg1.reset pFlat100 1` is flat
and indeed has `open_price = 0`. -/
theorem flat_implies_zero_open_price_witness : sAt1.open_price = 0 :=
  flat_implies_zero_open_price sAt1
    (Reachable.reset cfg1 pFlat100 1 sAt1 (by norm_num [cfg1, pFlat100, sAt1, Config.reset]))
    rfl

/-- Claim C10: construction rejects, by assertion, a commission argument
that is not a Python float and a `bars_count` that is not a Python int; in
particular an integer commission 0 raises at construction even though its
value satisfies the documented range constraint. -/
theorem init_type_asserts :
    (∀ (bc cp rc rw : PyVal) (c : Config),
      Config.init bc cp rc rw = Except.ok c →
        isInstInt bc = true ∧ isInstFloat cp = true) ∧
    Config.init (PyVal.int 10) (PyVal.int 0) (PyVal.bool true) (PyVal.bool true) =
      Except.error "AssertionError" := by
  constructor
  · intro bc cp rc rw c hc
    simp only [Config.init] at hc
    repeat' split at hc
    all_goals try exact Except.noConfusion hc
    rename_i hInt _ hFloat _ _ _
    constructor
    · revert hInt; simp
    · revert hFloat; simp
  · norm_num [Config.init, isInstInt, isInstFloat, PyVal.toI]

/-- Witness for C10: a well-typed construction passes, and the theorem
certifies its arguments were a Python int and a Python float. -/
theorem init_type_asserts_witness :
    isInstInt (PyVal.int 10) = true ∧ isInstFloat (PyVal.float (1/10)) = true :=
  init_type_asserts.1 (PyVal.int 10) (PyVal.float (1/10)) (PyVal.bool true)
    (PyVal.bool false) ⟨10, 1/1000, true, false⟩
    (by
      norm_num [Config.init, isInstInt, isInstFloat, isInstBool,
        PyVal.toI, PyVal.toQ, PyVal.toB]
      decide)

/-- Counterexample to claim C6: `reset` performs no range check against the
series. With `bars_count = 1` and a 1-bar series, `reset(series, 5)`
succeeds (no error), even though every bar index the episode references
(offset 5) is out of range — the failure only surfaces later, when `encode`
raises `IndexError`. -/
theorem reset_no_range_check_cex :
    Config.reset cfg0 pLen1 5 =
      Except.ok ⟨1, 0, true, true, false, 0, pLen1, 5⟩ ∧
    pLen1.high.length = 1 ∧
    (⟨1, 0, true, true, false, 0, pLen1, 5⟩ : State).encode =
      Except.error "IndexError" :=
  ⟨by
     norm_num [cfg0, pLen1, Config.reset]
     decide,
   rfl,
   by decide⟩

/-- Claim C6, amended: `reset(series, offset)` raises exactly when
`offset < bars_count - 1`; it performs no other validation (in particular
it does not check that the referenced bar indices are within range of the
series arrays); for every accepted input it sets `have_position = false`,
`open_price = 0` and binds the given series and offset. -/
theorem reset_spec_amended :
    ∀ (c : Config) (p : Prices) (off : Int),
      (off < (c.bars_count : Int) - 1 → c.reset p off = Except.error "AssertionError") ∧
      ((c.bars_count : Int) - 1 ≤ off → c.reset p off = Except.ok
        { bars_count := c.bars_count, comission := c.comission,
          reset_on_close := c.reset_on_close, reward_on_close := c.reward_on_close,
          have_position := false, open_price := 0, prices := p,
          offset := off.toNat }) :=
  fun c p off => ⟨reset_err c p off, reset_ok c p off⟩

/-- Witness for the amended C6: with `bars_count = 1`, offset -1 is
rejected and offset 0 is accepted and bound. -/
theorem reset_spec_amended_witness :
    Config.reset cfg0 pLen1 (-1) = Except.error "AssertionError" ∧
    Config.reset cfg0 pLen1 0 =
      Except.ok
        { bars_count := cfg0.bars_count, comission := cfg0.comission,
          reset_on_close := cfg0.reset_on_close, reward_on_close := cfg0.reward_on_close,
          have_position := false, open_price := 0, prices := pLen1,
          offset := Int.toNat 0 } :=
  ⟨(reset_spec_amended cfg0 pLen1 (-1)).1 (by decide),
   (reset_spec_amended cfg0 pLen1 0).2 (by decide)⟩

/-- Counterexample to claim C7: there is no use-after-done check. From
offset 0 of the 2-bar series, `step(Skip)` returns `done = true`; a further
`step` and a further `encode` on the resulting state both return ordinary
values instead of failing fast. -/
theorem use_after_done_cex :
    (⟨1, 0, true, true, false, 0, pLen2, 0⟩ : State).step Actions.Skip =
      Except.ok (sDoneFlat, 0, true) ∧
    sDoneFlat.step Actions.Skip =
      Except.ok ({ sDoneFlat with offset := 2 }, 0, true) ∧
    sDoneFlat.encode = Except.ok [0, 0, 0, 0, 0] :=
  ⟨(step_flat ⟨1, 0, true, true, false, 0, pLen2, 0⟩ Actions.Skip rfl (by decide)).trans
      (by norm_num [sDoneFlat, pLen2, doneAfter]),
   (step_flat sDoneFlat Actions.Skip rfl (by decide)).trans
      (by norm_num [sDoneFlat, pLen2, doneAfter]),
   by decide⟩

/-- Claim C7, amended: neither `step` nor `encode` tracks `done`; a `step`
after `done` was returned proceeds exactly like any other step (a flat
`Skip` step always succeeds, advancing the offset and recomputing `done`),
and calls only fail on out-of-range indexing, not on use-after-done. -/
theorem use_after_done_amended :
    ∀ s : State, s.have_position = false →
      s.step Actions.Skip =
        Except.ok ({ s with offset := s.offset + 1 }, 0, doneAfter s) :=
  fun s hp => step_flat s Actions.Skip hp (by decide)

/-- Witness for the amended C7: applied to `sDoneFlat`, the state from
which `done = true` was already returned, `step(Skip)` still succeeds. -/
theorem use_after_done_amended_witness :
    sDoneFlat.step Actions.Skip =
      Except.ok ({ sDoneFlat with offset := sDoneFlat.offset + 1 }, 0, doneAfter sDoneFlat) :=
  use_after_done_amended sDoneFlat rfl

/-- Counterexample to claim C9: a reachable state can hold a position with
`open_price = 0`. On a series whose absolute open prices are all zero,
`reset` then `step(Buy)` reaches a state with `have_position = true` and
`open_price = 0` — the code never checks that prices are positive, so the
division by `open_price` in `encode` is not guarded by the claimed
invariant. -/
theorem open_price_positive_cex :
    Reachable sZeroLong ∧ sZeroLong.have_position = true ∧ sZeroLong.open_price = 0 :=
  ⟨Reachable.step sZeroFlat Actions.Buy sZeroLong 0 false
      (Reachable.reset cfg0 pZero 0 sZeroFlat
        (by norm_num [cfg0, pZero, sZeroFlat, Config.reset]))
      ((step_buy sZeroFlat rfl (by decide) (by decide) (by decide) (by decide)).trans
        (by norm_num [sZeroFlat, sZeroLong, pZero, absClose, accrual, doneAfter])),
   rfl, rfl⟩

/-- Claim C9, amended: in every reachable state with `have_position = true`,
`open_price` is the absolute close price `open[j] * (1 + close[i])` of
in-range bars of the bound series; hence, whenever every such absolute
close price of the series is strictly positive, `open_price` is strictly
positive and the division by it in `encode` is safe. -/
theorem open_price_positive_amended :
    ∀ s : State, Reachable s →
      (∀ j : Nat, j < s.prices.open_.length → ∀ i : Nat, i < s.prices.close.length →
        0 < s.prices.open_.getD j 0 * (1 + s.prices.close.getD i 0)) →
      s.have_position = true → 0 < s.open_price := by
  intro s hr hpos hp
  obtain ⟨j, hj, i, hi, hop⟩ := reachable_open_price s hr hp
  rw [hop]
  exact hpos j hj i hi

/-- Witness for the amended C9: after buying on the all-positive flat
100-series, the reachable long state has `open_price > 0`. -/
theorem open_price_positive_amended_witness : 0 < sLong100.open_price :=
  open_price_positive_amended sLong100
    (Reachable.step sFlat100 Actions.Buy sLong100 (-(1 : ℚ)/10) false
      (Reachable.reset cfg1 pFlat100 0 sFlat100
        (by norm_num [cfg1, pFlat100, sFlat100, Config.reset]))
      ((step_buy sFlat100 rfl (by decide) (by decide) (by decide) (by decide)).trans
        (by norm_num [sFlat100, sLong100, pFlat100, absClose, accrual, doneAfter])))
    (by
      intro j hj i hi
      simp [sLong100, pFlat100] at hj hi
      interval_cases j <;> interval_cases i <;> norm_num [sLong100, pFlat100])
    rfl

end Environ
